import Mathlib

/-!
Shallow embedding of `src/insights_generator.py` (data-insights-generator).

Modelling conventions:
* Python strings are Lean `String`s; a CSV record (a `dict` from column name
  to cell value, in insertion order) is a `List (String × String)`; `dict.get`
  with default `""` is `Record.get`.
* `str.strip()` is modelled over the ASCII whitespace characters that occur in
  CSV data (space, tab, newline, carriage return, vertical tab, form feed).
* Python `float(...)` is modelled by `parseFloat`, an exact-rational semantics
  of the decimal float-literal grammar (optional sign, digits with optional
  fractional part, optional exponent).  IEEE-754 rounding, `inf`/`nan`
  spellings and digit-group underscores are outside the model: arithmetic on
  parsed values (`sum`, `/`, `min`, `max`) is exact over `ℚ`.
* Python float formatting is modelled by `fmt2` (the `:.2f` conversion,
  round-half-to-even) and `fmtQ` (the default `repr`, rendered exactly for
  integral values, with a rational fallback otherwise).
* File and console I/O in `main` is modelled by `mainRun`, a pure function of
  an `inputExists` flag returning the console lines and the optionally
  written report.
-/

/-- ASCII whitespace stripped by Python `str.strip()`. -/
def isPyWS (c : Char) : Bool :=
  c = ' ' || c = '\t' || c = '\n' || c = '\r' || c = '\x0b' || c = '\x0c'

/-- Model of Python `str.strip()`: drop leading and trailing whitespace. -/
def pstrip (s : String) : String :=
  String.mk (((s.toList.dropWhile isPyWS).reverse.dropWhile isPyWS).reverse)

/-- Value of a digit character. -/
def digitVal (c : Char) : ℕ := c.toNat - 48

/-- Numeric value of a digit string (most significant first). -/
def digitsToNat (ds : List Char) : ℕ :=
  ds.foldl (fun n c => 10 * n + digitVal c) 0

/-- Parse the exponent suffix of a float literal: the whole remaining
character list must be empty or a full `[eE][+-]?digits` suffix. -/
def parseExp (cs : List Char) : Option ℤ :=
  match cs with
  | [] => some 0
  | e :: rest =>
    if e = 'e' || e = 'E' then
      let (esgn, rest') : ℤ × List Char :=
        match rest with
        | '+' :: r => (1, r)
        | '-' :: r => (-1, r)
        | _ => (1, rest)
      let ds := rest'.takeWhile Char.isDigit
      let rem := rest'.dropWhile Char.isDigit
      if ds.isEmpty || !rem.isEmpty then none
      else some (esgn * (digitsToNat ds : ℤ))
    else none

/-- Model of Python `float(s)` for an already-stripped string `s`, as an exact
rational.  Grammar: `[+-]? (digits [. digits?] | . digits) ([eE][+-]?digits)?`.
The `inf`/`nan` spellings and underscore digit separators accepted by CPython
are outside the model. -/
def parseFloat (s : String) : Option ℚ :=
  let cs := s.toList
  let (sgn, cs') : ℚ × List Char :=
    match cs with
    | '+' :: rest => (1, rest)
    | '-' :: rest => (-1, rest)
    | _ => (1, cs)
  let ipart := cs'.takeWhile Char.isDigit
  let rest₁ := cs'.dropWhile Char.isDigit
  let (fpart, rest₂) : List Char × List Char :=
    match rest₁ with
    | '.' :: r => (r.takeWhile Char.isDigit, r.dropWhile Char.isDigit)
    | _ => ([], rest₁)
  if ipart.isEmpty && fpart.isEmpty then none
  else
    match parseExp rest₂ with
    | none => none
    | some e =>
      some (sgn * ((digitsToNat ipart : ℚ)
            + (digitsToNat fpart : ℚ) / (10 : ℚ) ^ fpart.length) * (10 : ℚ) ^ e)

/-- A CSV record: `csv.DictReader` row, column name → raw cell value,
in header (insertion) order. -/
abbrev Record := List (String × String)

/-- Model of Python `r.get(c, "")`. -/
def Record.get (r : Record) (c : String) : String :=
  match r.find? (fun p => p.1 == c) with
  | some p => p.2
  | none => ""

/-- Model of Python `r.keys()` (insertion order). -/
def Record.keys (r : Record) : List String := r.map (fun p => p.1)

/-- The stripped cell of record `r` at column `c`: the expression
`r.get(c, "").strip()` that every analysis function evaluates. -/
def cell (r : Record) (c : String) : String := pstrip (Record.get r c)

/-- A single stripped cell passes the numeric test of
`detect_numeric_columns` when it is empty or parses as a float. -/
def cellOk (v : String) : Bool := v == "" || (parseFloat v).isSome

/-- Model of `detect_numeric_columns` (`src/insights_generator.py:18`):
keep, in header order, the columns of the first record all of whose
stripped cells are empty or parse as floats; empty dataset gives `[]`. -/
def detect_numeric_columns (rows : List Record) : List String :=
  match rows with
  | [] => []
  | r0 :: _ =>
    (Record.keys r0).filter (fun c => rows.all (fun r => cellOk (cell r c)))

/-- The float values collected by the loop of `basic_stats`: stripped cells
of column `col`, empties and parse failures skipped. -/
def parsedVals (rows : List Record) (col : String) : List ℚ :=
  rows.filterMap (fun r => parseFloat (cell r col))

/-- Result record of `basic_stats` (the dict with keys avg/min/max/count;
`count` is stored as the collected-list length). -/
structure Stats where
  avg : ℚ
  min : ℚ
  max : ℚ
  count : ℕ
deriving DecidableEq, Repr

/-- Model of `basic_stats` (`src/insights_generator.py:39`): `none` when no
value parses, else arithmetic mean, running `min`/`max`, and count of the
collected values. -/
def basic_stats (rows : List Record) (col : String) : Option Stats :=
  match parsedVals rows col with
  | [] => none
  | v :: vs =>
    some { avg := (v :: vs).sum / ((v :: vs).length : ℚ)
           min := vs.foldl Min.min v
           max := vs.foldl Max.max v
           count := (v :: vs).length }

/-- Model of `missing_values` (`src/insights_generator.py:60`): for each
column of the first record, in order, the number of rows whose stripped cell
is empty, kept only when positive; empty dataset gives `[]`. -/
def missing_values (rows : List Record) : List (String × ℕ) :=
  match rows with
  | [] => []
  | r0 :: _ =>
    (Record.keys r0).filterMap (fun c =>
      let cnt := rows.countP (fun r => cell r c == "")
      if 0 < cnt then some (c, cnt) else none)

/-- Model of `first_categorical_column` (`src/insights_generator.py:74`):
first column of the first record not listed in `numeric_cols`. -/
def first_categorical_column (rows : List Record) (numeric_cols : List String) :
    Option String :=
  match rows with
  | [] => none
  | r0 :: _ => (Record.keys r0).find? (fun c => !(numeric_cols.contains c))

/-- One step of the frequency-dict build in `most_frequent`: bump the count
of `v`, inserting it at the end on first sight (dict insertion order). -/
def bump (acc : List (String × ℕ)) (v : String) : List (String × ℕ) :=
  if acc.any (fun p => p.1 == v) then
    acc.map (fun p => if p.1 == v then (p.1, p.2 + 1) else p)
  else acc ++ [(v, 1)]

/-- The frequency dict of `most_frequent`, as an insertion-ordered list. -/
def freqMap (rows : List Record) (col : String) : List (String × ℕ) :=
  rows.foldl (fun acc r =>
    let v := cell r col
    if v == "" then acc else bump acc v) []

/-- Model of Python `max(freq, key=freq.get)` over an insertion-ordered dict:
the first entry with maximal count. -/
def argmaxFirst (l : List (String × ℕ)) : Option (String × ℕ) :=
  match l with
  | [] => none
  | p :: ps => some (ps.foldl (fun best q => if best.2 < q.2 then q else best) p)

/-- Model of `most_frequent` (`src/insights_generator.py:83`): `none` when the
column has no non-empty stripped cell, else the first maximal entry of the
frequency dict. -/
def most_frequent (rows : List Record) (col : String) : Option (String × ℕ) :=
  argmaxFirst (freqMap rows col)

/-- Round a rational to the nearest integer, ties to the even integer
(the rounding of Python `format(x, ".2f")` applied to the exact value). -/
def roundHalfEven (q : ℚ) : ℤ :=
  let f := ⌊q⌋
  let r := q - (f : ℚ)
  if r < 1 / 2 then f
  else if 1 / 2 < r then f + 1
  else if f % 2 = 0 then f else f + 1

/-- Model of the Python f-string conversion `{x:.2f}` on the exact value. -/
def fmt2 (q : ℚ) : String :=
  let sgn := if q < 0 then "-" else ""
  let m := (roundHalfEven (|q| * 100)).toNat
  let fp := m % 100
  sgn ++ toString (m / 100) ++ "." ++
    (if fp < 10 then "0" ++ toString fp else toString fp)

/-- Model of the default Python rendering `{x}` of a float: exact for
integral values (`10.0`), rational notation as a fallback otherwise. -/
def fmtQ (q : ℚ) : String :=
  if q.den = 1 then toString q.num ++ ".0" else toString q

/-- A single-quote character as a string (used by the report f-strings). -/
def squote : String := String.singleton (Char.ofNat 39)

/-- The divider produced by `"-" * 32`. -/
def dashes : String := String.mk (List.replicate 32 '-')

/-- The per-column line of the numeric summary:
`  {c}: avg={avg:.2f}, min={min}, max={max} (n={count})`. -/
def statLine (c : String) (s : Stats) : String :=
  "  " ++ c ++ ": avg=" ++ fmt2 s.avg ++ ", min=" ++ fmtQ s.min ++
    ", max=" ++ fmtQ s.max ++ " (n=" ++ toString s.count ++ ")"

/-- Model of `stats_map.get(c)` on the insertion-ordered stats dict. -/
def lookupStats (m : List (String × Stats)) (c : String) : Option Stats :=
  (m.find? (fun p => p.1 == c)).map (fun p => p.2)

/-- Lines of the numeric-columns block of `write_report`
(`src/insights_generator.py:113`): a column whose stats are absent is
skipped (`if not s: continue`; a present `Stats` is a non-empty dict,
hence truthy). -/
def numericSection (ncols : List String) (stats_map : List (String × Stats)) :
    List String :=
  if ncols.isEmpty then ["No numeric columns detected.", ""]
  else "Numeric columns summary:" ::
    (ncols.filterMap (fun c => (lookupStats stats_map c).map (statLine c)) ++ [""])

/-- Lines of the categorical block (`src/insights_generator.py:125`).
Python truthiness: `cat_col` is falsy when `None` or the empty string;
a present `cat_top` pair is always truthy. -/
def catSection (cat_col : Option String) (cat_top : Option (String × ℕ)) :
    List String :=
  match cat_col, cat_top with
  | none, _ => []
  | some c, some t =>
    if c == "" then []
    else ["Most frequent value in " ++ squote ++ c ++ squote ++ ": " ++ t.1 ++
          " (" ++ toString t.2 ++ " occurrences)", ""]
  | some c, none =>
    if c == "" then []
    else ["No frequent value computed for " ++ squote ++ c ++ squote ++
          " (no non-empty values).", ""]

/-- Lines of the missing-values block (`src/insights_generator.py:132`). -/
def missingSection (missing : List (String × ℕ)) : List String :=
  if missing.isEmpty then []
  else "Missing values:" ::
    (missing.map (fun p => "  " ++ p.1 ++ ": " ++ toString p.2) ++ [""])

/-- Lines of the notes block (`src/insights_generator.py:139`), ending with
the closing divider. -/
def notesSection (ncols : List String) (cat_col : Option String)
    (cat_top : Option (String × ℕ)) (missing : List (String × ℕ)) :
    List String :=
  ["Notes:"]
    ++ (if ncols.isEmpty then []
        else ["- Numeric spread suggests basic variation present."])
    ++ (match cat_col, cat_top with
        | some c, some t =>
          if c == "" then []
          else ["- " ++ squote ++ c ++ squote ++ " has a dominant category: " ++
                t.1 ++ "."]
        | _, _ => [])
    ++ (if missing.isEmpty then ["- No missing values detected."] else [])
    ++ [dashes]

/-- All lines appended by `write_report`, in order. -/
def reportLines (file_name : String) (rows_count : ℕ) (ncols : List String)
    (stats_map : List (String × Stats)) (cat_col : Option String)
    (cat_top : Option (String × ℕ)) (missing : List (String × ℕ)) :
    List String :=
  ["DATA INSIGHTS REPORT", dashes,
   "Source file: " ++ file_name,
   "Total rows: " ++ toString rows_count, ""]
    ++ numericSection ncols stats_map
    ++ catSection cat_col cat_top
    ++ missingSection missing
    ++ notesSection ncols cat_col cat_top missing

/-- Model of Python `"\n".join`. -/
def joinLines : List String → String
  | [] => ""
  | [a] => a
  | a :: b :: rest => a ++ "\n" ++ joinLines (b :: rest)

/-- Model of `write_report` (`src/insights_generator.py:96`): the text
written to the output file. -/
def write_report (file_name : String) (rows_count : ℕ) (ncols : List String)
    (stats_map : List (String × Stats)) (cat_col : Option String)
    (cat_top : Option (String × ℕ)) (missing : List (String × ℕ)) : String :=
  joinLines (reportLines file_name rows_count ncols stats_map cat_col cat_top missing)

/-- The full pipeline of `main` after loading (`src/insights_generator.py:162`):
classification, per-column stats, categorical pick, missing counts, report. -/
def generate_report (file_name : String) (rows : List Record) : String :=
  let numeric_cols := detect_numeric_columns rows
  let stats_map := numeric_cols.filterMap
    (fun c => (basic_stats rows c).map (fun s => (c, s)))
  let cat_col := first_categorical_column rows numeric_cols
  let cat_top := match cat_col with
    | some c => most_frequent rows c
    | none => none
  let missing := missing_values rows
  write_report file_name rows.length numeric_cols stats_map cat_col cat_top missing

/-- Model of `main` (`src/insights_generator.py:152`): the filesystem check
is an `inputExists` flag and the loaded dataset a parameter; returns the
console lines and, when a report is written, its path and text. -/
def mainRun (inputExists : Bool) (csv_path file_name out_path : String)
    (rows : List Record) : List String × Option (String × String) :=
  if !inputExists then (["File not found: " ++ csv_path], none)
  else (["Loaded " ++ toString rows.length ++ " rows.",
         "Report written to: " ++ out_path],
        some (out_path, generate_report file_name rows))

/-- The missing-value count reported for column `c`: the entry of the
`missing_values` mapping, `0` when the column is absent from it. -/
def missingCount (rows : List Record) (c : String) : ℕ :=
  match (missing_values rows).find? (fun p => p.1 == c) with
  | some p => p.2
  | none => 0

/-- Replace a cell by `""` when it consists only of whitespace
(used to state that such cells behave exactly like empty cells). -/
def normCell (v : String) : String :=
  if v.toList.all isPyWS then "" else v

/-- Apply `normCell` to every cell of a record. -/
def normalizeRecord (r : Record) : Record :=
  r.map (fun p => (p.1, normCell p.2))

/-- Apply `normCell` to every cell of a dataset. -/
def normalizeRows (rows : List Record) : List Record :=
  rows.map normalizeRecord

/-- The worked scenario dataset of the specification:
rows `region/amount` with one missing amount. -/
def demoRows : List Record :=
  [[("region", "east"), ("amount", "10")],
   [("region", "west"), ("amount", "20")],
   [("region", "east"), ("amount", "")]]

theorem cellOk_iff (v : String) :
    cellOk v = true ↔ (v = "" ∨ (parseFloat v).isSome = true) := by
  simp [cellOk]

theorem parseFloat_empty : parseFloat "" = none := by decide

theorem mem_detect_iff (rows : List Record) (c : String) :
    c ∈ detect_numeric_columns rows ↔
      ∃ r0 rest, rows = r0 :: rest ∧ c ∈ Record.keys r0 ∧
        ∀ r ∈ rows, cellOk (cell r c) = true := by
  cases rows with
  | nil => simp [detect_numeric_columns]
  | cons r0 rest =>
    simp only [detect_numeric_columns, List.mem_filter, List.all_eq_true]
    constructor
    · rintro ⟨hk, hall⟩
      exact ⟨r0, rest, rfl, hk, hall⟩
    · rintro ⟨r0', rest', heq, hk, hall⟩
      obtain ⟨rfl, rfl⟩ : r0' = r0 ∧ rest' = rest := by
        constructor <;> injection heq <;> simp_all
      exact ⟨hk, hall⟩

/-- Claim C1, counterexample: the cell `" "` is non-empty and fails float
parsing (both raw and after the strip the builtin itself performs), yet
`detect_numeric_columns` still classifies its column as numeric, because the
code strips the cell before testing it. -/
theorem detect_raw_nonempty_counterexample :
    detect_numeric_columns [[("a", " ")]] = ["a"] ∧
    Record.get [("a", " ")] "a" = " " ∧
    parseFloat " " = none ∧
    parseFloat (pstrip " ") = none := by
  decide

/-- Claim C1, amended: `detect_numeric_columns` returns exactly the columns
of the first record in which every cell that is non-empty after stripping
whitespace parses as a float (so empty and whitespace-only cells never
disqualify, and an all-empty column is numeric); the output is a sublist of
the header columns, hence preserves header order, and an empty dataset
yields the empty list. -/
theorem detect_spec (rows : List Record) :
    (rows = [] → detect_numeric_columns rows = []) ∧
    (∀ r0 rest, rows = r0 :: rest →
      List.Sublist (detect_numeric_columns rows) (Record.keys r0)) ∧
    ∀ c, c ∈ detect_numeric_columns rows ↔
      ((∃ r0 rest, rows = r0 :: rest ∧ c ∈ Record.keys r0) ∧
       ∀ r ∈ rows, cell r c ≠ "" → (parseFloat (cell r c)).isSome = true) := by
  refine ⟨?_, ?_, ?_⟩
  · rintro rfl; rfl
  · rintro r0 rest rfl
    exact List.filter_sublist _
  · intro c
    rw [mem_detect_iff]
    constructor
    · rintro ⟨r0, rest, heq, hk, hall⟩
      refine ⟨⟨r0, rest, heq, hk⟩, fun r hr hne => ?_⟩
      rcases (cellOk_iff _).mp (hall r hr) with h | h
      · exact absurd h hne
      · exact h
    · rintro ⟨⟨r0, rest, heq, hk⟩, hall⟩
      refine ⟨r0, rest, heq, hk, fun r hr => (cellOk_iff _).mpr ?_⟩
      by_cases hne : cell r c = ""
      · exact Or.inl hne
      · exact Or.inr (hall r hr hne)

theorem detect_spec_witness :
    "amount" ∈ detect_numeric_columns demoRows :=
  ((detect_spec demoRows).2.2 "amount").mpr
    ⟨⟨[("region", "east"), ("amount", "10")], _, rfl, by decide⟩, by decide⟩

theorem foldl_min_mem (vs : List ℚ) : ∀ v, vs.foldl Min.min v ∈ v :: vs := by
  induction vs with
  | nil => intro v; simp
  | cons w ws ih =>
    intro v
    have h := ih (Min.min v w)
    simp only [List.foldl_cons]
    rcases List.mem_cons.mp h with h | h
    · rcases min_choice v w with hc | hc
      · rw [h, hc]; simp
      · rw [h, hc]; simp
    · simp only [List.mem_cons]
      tauto

theorem foldl_min_le (vs : List ℚ) : ∀ v, ∀ x ∈ v :: vs, vs.foldl Min.min v ≤ x := by
  induction vs with
  | nil =>
    intro v x hx
    simp at hx
    simp [hx]
  | cons w ws ih =>
    intro v x hx
    simp only [List.foldl_cons]
    rcases List.mem_cons.mp hx with h | hx'
    · rw [h]
      exact le_trans (ih (Min.min v w) _ (List.mem_cons_self _ _)) (min_le_left v w)
    · rcases List.mem_cons.mp hx' with h | hx''
      · rw [h]
        exact le_trans (ih (Min.min v w) _ (List.mem_cons_self _ _)) (min_le_right v w)
      · exact ih (Min.min v w) x (List.mem_cons_of_mem _ hx'')

theorem foldl_max_mem (vs : List ℚ) : ∀ v, vs.foldl Max.max v ∈ v :: vs := by
  induction vs with
  | nil => intro v; simp
  | cons w ws ih =>
    intro v
    have h := ih (Max.max v w)
    simp only [List.foldl_cons]
    rcases List.mem_cons.mp h with h | h
    · rcases max_choice v w with hc | hc
      · rw [h, hc]; simp
      · rw [h, hc]; simp
    · simp only [List.mem_cons]
      tauto

theorem le_foldl_max (vs : List ℚ) : ∀ v, ∀ x ∈ v :: vs, x ≤ vs.foldl Max.max v := by
  induction vs with
  | nil =>
    intro v x hx
    simp at hx
    simp [hx]
  | cons w ws ih =>
    intro v x hx
    simp only [List.foldl_cons]
    rcases List.mem_cons.mp hx with h | hx'
    · rw [h]
      exact le_trans (le_max_left v w) (ih (Max.max v w) _ (List.mem_cons_self _ _))
    · rcases List.mem_cons.mp hx' with h | hx''
      · rw [h]
        exact le_trans (le_max_right v w) (ih (Max.max v w) _ (List.mem_cons_self _ _))
      · exact ih (Max.max v w) x (List.mem_cons_of_mem _ hx'')

theorem avg_between (l : List ℚ) (hl : l ≠ []) (m M : ℚ)
    (hm : ∀ x ∈ l, m ≤ x) (hM : ∀ x ∈ l, x ≤ M) :
    m ≤ l.sum / (l.length : ℚ) ∧ l.sum / (l.length : ℚ) ≤ M := by
  have hlen : 0 < (l.length : ℚ) := by
    exact_mod_cast List.length_pos.mpr hl
  constructor
  · rw [le_div_iff₀ hlen]
    have h := List.card_nsmul_le_sum l m hm
    rw [nsmul_eq_mul] at h
    linarith [h]
  · rw [div_le_iff₀ hlen]
    have h := List.sum_le_card_nsmul l M hM
    rw [nsmul_eq_mul] at h
    linarith [h]

/-- Claim C4: `basic_stats` returns nothing exactly when no cell of the
column parses as a float (unparseable cells are skipped, never errors);
otherwise the average is the arithmetic mean of the parsed values, min and
max are their minimum and maximum under the standard order, and count is
the number of successfully parsed values. -/
theorem basic_stats_spec (rows : List Record) (col : String) :
    (basic_stats rows col = none ↔ ∀ r ∈ rows, parseFloat (cell r col) = none) ∧
    ∀ s, basic_stats rows col = some s →
      s.count = (parsedVals rows col).length ∧ 0 < s.count ∧
      s.avg = (parsedVals rows col).sum / ((parsedVals rows col).length : ℚ) ∧
      s.min ∈ parsedVals rows col ∧ (∀ x ∈ parsedVals rows col, s.min ≤ x) ∧
      s.max ∈ parsedVals rows col ∧ (∀ x ∈ parsedVals rows col, x ≤ s.max) := by
  constructor
  · rw [show (basic_stats rows col = none ↔ parsedVals rows col = []) from ?_]
    · exact List.filterMap_eq_nil_iff
    · unfold basic_stats
      cases parsedVals rows col with
      | nil => simp
      | cons v vs => simp
  · intro s hs
    unfold basic_stats at hs
    cases hp : parsedVals rows col with
    | nil => rw [hp] at hs; cases hs
    | cons v vs =>
      rw [hp] at hs
      cases hs
      refine ⟨rfl, by simp, rfl, ?_, ?_, ?_, ?_⟩
      · exact foldl_min_mem vs v
      · exact foldl_min_le vs v
      · exact foldl_max_mem vs v
      · exact le_foldl_max vs v

theorem basic_stats_spec_witness :
    basic_stats demoRows "region" = none :=
  ((basic_stats_spec demoRows "region").1).mpr (by decide)

theorem find_filterMap_cnt (ks : List String) (f : String → ℕ) (c : String) :
    ((ks.filterMap (fun k => if 0 < f k then some (k, f k) else none)).find?
      (fun p => p.1 == c)) =
    (if c ∈ ks ∧ 0 < f c then some (c, f c) else none) := by
  induction ks with
  | nil => simp
  | cons k ks ih =>
    by_cases hk : k = c
    · subst hk
      by_cases hf : 0 < f k
      · simp [List.filterMap_cons, hf, List.find?_cons]
      · simp only [List.filterMap_cons, if_neg hf, ih]
        simp [hf]
    · have hck : (c = k ∨ c ∈ ks) ↔ c ∈ ks := by
        constructor
        · rintro (h | h)
          · exact absurd h.symm hk
          · exact h
        · exact Or.inr
      by_cases hf : 0 < f k
      · simp only [List.filterMap_cons, if_pos hf, List.find?_cons]
        have hne : ((k, f k).1 == c) = false := by
          simp [hk]
        rw [hne, ih]
        simp only [List.mem_cons, hck]
      · simp only [List.filterMap_cons, if_neg hf, ih]
        simp only [List.mem_cons, hck]

theorem missing_values_cons (r0 : Record) (rest : List Record) :
    missing_values (r0 :: rest) =
      (Record.keys r0).filterMap (fun k =>
        if 0 < ((r0 :: rest).countP (fun r => cell r k == "")) then
          some (k, (r0 :: rest).countP (fun r => cell r k == ""))
        else none) := rfl

theorem missingCount_eq (r0 : Record) (rest : List Record) (c : String)
    (hc : c ∈ Record.keys r0) :
    missingCount (r0 :: rest) c =
      (r0 :: rest).countP (fun r => cell r c == "") := by
  unfold missingCount
  rw [missing_values_cons,
    find_filterMap_cnt (Record.keys r0)
      (fun k => (r0 :: rest).countP (fun r => cell r k == "")) c]
  by_cases h : 0 < (r0 :: rest).countP (fun r => cell r c == "")
  · simp [hc, h]
  · simp only [hc, true_and, if_neg h]
    omega

theorem parsed_add_missing (rows : List Record) (c : String)
    (h : ∀ r ∈ rows, cellOk (cell r c) = true) :
    (parsedVals rows c).length + rows.countP (fun r => cell r c == "") =
      rows.length := by
  induction rows with
  | nil => simp [parsedVals]
  | cons r rs ih =>
    have hr := h r (List.mem_cons_self _ _)
    have ih' := ih (fun r' hr' => h r' (List.mem_cons_of_mem _ hr'))
    by_cases hce : cell r c = ""
    · have hpn : parseFloat (cell r c) = none := by
        rw [hce]
        exact parseFloat_empty
      have hbe : (cell r c == "") = true := by
        simp [hce]
      simp only [parsedVals] at ih' ⊢
      rw [@List.filterMap_cons_none _ _ (fun r => parseFloat (cell r c)) r rs hpn,
        List.countP_cons, hbe, List.length_cons]
      simp only [if_pos]
      omega
    · rcases (cellOk_iff _).mp hr with he | hp
      · exact absurd he hce
      · obtain ⟨q, hq⟩ := Option.isSome_iff_exists.mp hp
        have hbe : (cell r c == "") = false := by
          simp [hce]
        simp only [parsedVals] at ih' ⊢
        rw [@List.filterMap_cons_some _ _ (fun r => parseFloat (cell r c)) r rs q hq,
          List.countP_cons, hbe, List.length_cons, List.length_cons]
        simp
        omega

/-- Claim C2: for a column classified numeric whose stats are present, the
reported count equals the total number of rows minus the missing-value count
reported for that column, and (the count being positive) the reported
statistics satisfy min ≤ avg ≤ max. -/
theorem numeric_count_and_bounds (rows : List Record) (c : String) (s : Stats)
    (hc : c ∈ detect_numeric_columns rows)
    (hs : basic_stats rows c = some s) :
    missingCount rows c ≤ rows.length ∧
    s.count = rows.length - missingCount rows c ∧
    (0 < s.count → s.min ≤ s.avg ∧ s.avg ≤ s.max) := by
  obtain ⟨r0, rest, rfl, hck, hall⟩ := (mem_detect_iff _ c).mp hc
  have hpm := parsed_add_missing (r0 :: rest) c hall
  have hmc := missingCount_eq r0 rest c hck
  unfold basic_stats at hs
  cases hp : parsedVals (r0 :: rest) c with
  | nil =>
    rw [hp] at hs
    cases hs
  | cons v vs =>
    rw [hp] at hs
    cases hs
    rw [hp] at hpm
    refine ⟨by omega, by simp only []; omega, fun _ => ?_⟩
    have hb := avg_between (v :: vs) (List.cons_ne_nil v vs)
      (vs.foldl Min.min v) (vs.foldl Max.max v)
      (foldl_min_le vs v) (le_foldl_max vs v)
    exact hb

theorem numeric_count_and_bounds_witness :
    missingCount demoRows "amount" ≤ demoRows.length :=
  (numeric_count_and_bounds demoRows "amount"
    ((basic_stats demoRows "amount").get (by decide))
    (by decide) (Option.some_get (by decide)).symm).1

/-- Claim C3, counterexample: the whitespace cell `" "` is not the empty
string, yet `missing_values` counts it as missing, because the code strips
the cell before comparing it with `""`: the mapping reports count 1 while
the number of cells equal to the empty string is 0. -/
theorem missing_values_raw_counterexample :
    missing_values [[("a", " ")]] = [("a", 1)] ∧
    List.countP (fun r => Record.get r "a" == "") [[("a", " ")]] = 0 := by
  decide

/-- Claim C3, amended: `missing_values` maps each column of the first record
to the number of its cells that are empty after stripping whitespace,
includes a column exactly when that count is strictly positive (so the
mapping never contains a zero-count entry), and returns the empty mapping
for an empty dataset. -/
theorem missing_values_spec (rows : List Record) :
    (rows = [] → missing_values rows = []) ∧
    (∀ p ∈ missing_values rows, 0 < p.2) ∧
    (∀ r0 rest, rows = r0 :: rest →
      ∀ c, (missing_values rows).find? (fun p => p.1 == c) =
        (if c ∈ Record.keys r0 ∧ 0 < rows.countP (fun r => cell r c == "") then
          some (c, rows.countP (fun r => cell r c == ""))
        else none)) := by
  refine ⟨?_, ?_, ?_⟩
  · rintro rfl; rfl
  · intro p hp
    cases rows with
    | nil => cases hp
    | cons r0 rest =>
      rw [missing_values_cons] at hp
      obtain ⟨k, _, hif⟩ := List.mem_filterMap.mp hp
      by_cases h : 0 < (r0 :: rest).countP (fun r => cell r k == "")
      · rw [if_pos h] at hif
        cases hif
        exact h
      · rw [if_neg h] at hif
        cases hif
  · rintro r0 rest rfl c
    rw [missing_values_cons,
      find_filterMap_cnt (Record.keys r0)
        (fun k => (r0 :: rest).countP (fun r => cell r k == "")) c]

theorem missing_values_spec_witness :
    (missing_values demoRows).find? (fun p => p.1 == "amount") =
      (if "amount" ∈ Record.keys [("region", "east"), ("amount", "10")] ∧
          0 < demoRows.countP (fun r => cell r "amount" == "") then
        some ("amount", demoRows.countP (fun r => cell r "amount" == ""))
      else none) :=
  (missing_values_spec demoRows).2.2 _ _ rfl "amount"

theorem find_first_decomp (p : String → Bool) (l : List String) (c : String)
    (h : l.find? p = some c) :
    p c = true ∧ ∃ pre suf, l = pre ++ c :: suf ∧ ∀ k ∈ pre, p k = false := by
  induction l with
  | nil => cases h
  | cons a l ih =>
    rw [List.find?_cons] at h
    cases hpa : p a with
    | true =>
      rw [hpa] at h
      cases h
      exact ⟨hpa, [], l, rfl, by simp⟩
    | false =>
      rw [hpa] at h
      obtain ⟨hc, pre, suf, hl, hpre⟩ := ih h
      refine ⟨hc, a :: pre, suf, by rw [hl]; rfl, fun k hk => ?_⟩
      rcases List.mem_cons.mp hk with hk | hk
      · rw [hk]
        exact hpa
      · exact hpre k hk

/-- Claim C5: `first_categorical_column` returns `none` on an empty dataset,
returns `none` exactly when every header column is numeric, and otherwise
returns the first header column, in order, not in the numeric list (every
earlier column is numeric); when it returns `none` the categorical block of
the report is empty. -/
theorem first_categorical_spec (rows : List Record) (ncols : List String) :
    (rows = [] → first_categorical_column rows ncols = none) ∧
    (∀ r0 rest, rows = r0 :: rest →
      ((first_categorical_column rows ncols = none ↔
          ∀ c ∈ Record.keys r0, c ∈ ncols) ∧
       ∀ c, first_categorical_column rows ncols = some c →
         c ∈ Record.keys r0 ∧ c ∉ ncols ∧
         ∃ pre suf, Record.keys r0 = pre ++ c :: suf ∧ ∀ k ∈ pre, k ∈ ncols)) ∧
    (∀ cat_top, catSection none cat_top = []) := by
  refine ⟨?_, ?_, fun _ => rfl⟩
  · rintro rfl; rfl
  · rintro r0 rest rfl
    have hdef : first_categorical_column (r0 :: rest) ncols =
        (Record.keys r0).find? (fun k => !(ncols.contains k)) := rfl
    constructor
    · rw [hdef, List.find?_eq_none]
      constructor
      · intro h c hc
        simpa using h c hc
      · intro h c hc
        simpa using h c hc
    · intro c hc
      rw [hdef] at hc
      have hmem := List.mem_of_find?_eq_some hc
      have hnc : c ∉ ncols := by simpa using List.find?_some hc
      obtain ⟨_, pre, suf, hl, hpre⟩ := find_first_decomp _ _ _ hc
      refine ⟨hmem, hnc, pre, suf, hl, fun k hk => ?_⟩
      simpa using hpre k hk

theorem first_categorical_spec_witness :
    first_categorical_column demoRows (detect_numeric_columns demoRows) =
      some "region" ∧ first_categorical_column [] ["amount"] = none :=
  ⟨by decide, (first_categorical_spec [] ["amount"]).1 rfl⟩

/-- Claim C6: when the input file does not exist, the run prints the single
line `File not found: ` followed by the path, writes no report, and does no
processing (the result does not depend on the dataset). -/
theorem main_missing_file (csv_path file_name out_path : String)
    (rows : List Record) :
    mainRun false csv_path file_name out_path rows =
      (["File not found: " ++ csv_path], none) := rfl

/-- Claim C7: the pipeline is deterministic: two runs of the full pipeline
on identical input produce identical report text.  In this embedding every
stage is a pure function and the frequency tie-break iterates the dict in
its CPython insertion order, so the whole run is a function of the input. -/
theorem pipeline_deterministic (file_name : String) (rows₁ rows₂ : List Record)
    (h : rows₁ = rows₂) :
    generate_report file_name rows₁ = generate_report file_name rows₂ := by
  rw [h]

theorem pipeline_deterministic_witness :
    generate_report "sales_data.csv" demoRows =
      generate_report "sales_data.csv" demoRows :=
  pipeline_deterministic "sales_data.csv" demoRows demoRows rfl

theorem length_filterMap_eq_countP {α β : Type} (f : α → Option β) (l : List α) :
    (l.filterMap f).length = l.countP (fun a => (f a).isSome) := by
  induction l with
  | nil => rfl
  | cons a l ih =>
    cases h : f a with
    | none =>
      rw [List.filterMap_cons_none h, List.countP_cons, ih]
      simp [h]
    | some b =>
      rw [List.filterMap_cons_some h, List.length_cons, List.countP_cons, ih]
      simp [h]

theorem joinLines_cons_of_ne_nil (a : String) (l : List String) (h : l ≠ []) :
    joinLines (a :: l) = a ++ "\n" ++ joinLines l := by
  cases l with
  | nil => exact absurd rfl h
  | cons b t => rfl

theorem joinLines_ends_with (l : List String) (a : String)
    (h : l.getLast? = some a) : ∃ front, joinLines l = front ++ a := by
  induction l with
  | nil => cases h
  | cons b t ih =>
    cases t with
    | nil =>
      simp only [List.getLast?_singleton] at h
      cases h
      exact ⟨"", by simp [joinLines]⟩
    | cons c t' =>
      have ht : (c :: t').getLast? = some a := by
        rw [List.getLast?_cons_cons] at h
        exact h
      obtain ⟨front, hf⟩ := ih ht
      refine ⟨b ++ "\n" ++ front, ?_⟩
      rw [joinLines_cons_of_ne_nil b (c :: t') (List.cons_ne_nil c t'), hf]
      simp [String.append_assoc]

theorem notesSection_getLast (ncols : List String) (cat_col : Option String)
    (cat_top : Option (String × ℕ)) (missing : List (String × ℕ)) :
    (notesSection ncols cat_col cat_top missing).getLast? = some dashes := by
  unfold notesSection
  rw [List.getLast?_concat]

theorem reportLines_getLast (file_name : String) (rows_count : ℕ)
    (ncols : List String) (stats_map : List (String × Stats))
    (cat_col : Option String) (cat_top : Option (String × ℕ))
    (missing : List (String × ℕ)) :
    (reportLines file_name rows_count ncols stats_map cat_col cat_top
      missing).getLast? = some dashes := by
  unfold reportLines
  rw [List.getLast?_append, notesSection_getLast]
  rfl

/-- Claim C8: the report text begins with the title line followed by the
32-dash divider, ends with the 32-dash divider with no trailing newline
(its final character is a dash), every numeric column with present stats is
rendered with the `statLine` format, and columns with absent stats are
skipped: the numeric block holds exactly its header, one line per present
stat, and a blank line. -/
theorem report_layout (file_name : String) (rows_count : ℕ)
    (ncols : List String) (stats_map : List (String × Stats))
    (cat_col : Option String) (cat_top : Option (String × ℕ))
    (missing : List (String × ℕ)) :
    dashes.length = 32 ∧ dashes.toList.all (fun ch => ch = '-') = true ∧
    (∃ rest, write_report file_name rows_count ncols stats_map cat_col cat_top
        missing = "DATA INSIGHTS REPORT" ++ "\n" ++ dashes ++ "\n" ++ rest) ∧
    (∃ front, write_report file_name rows_count ncols stats_map cat_col cat_top
        missing = front ++ dashes) ∧
    (write_report file_name rows_count ncols stats_map cat_col cat_top
        missing).toList.getLast? = some '-' ∧
    (∀ c ∈ ncols, ∀ s, lookupStats stats_map c = some s →
      statLine c s ∈ reportLines file_name rows_count ncols stats_map cat_col
        cat_top missing) ∧
    (ncols ≠ [] → (numericSection ncols stats_map).length =
      2 + ncols.countP (fun c => (lookupStats stats_map c).isSome)) := by
  have hrl : reportLines file_name rows_count ncols stats_map cat_col cat_top
      missing = "DATA INSIGHTS REPORT" :: dashes ::
        (("Source file: " ++ file_name) ::
         ("Total rows: " ++ toString rows_count) :: "" ::
         (numericSection ncols stats_map ++ catSection cat_col cat_top ++
          missingSection missing ++
          notesSection ncols cat_col cat_top missing)) := by
    simp [reportLines]
  have hfront : ∃ front, write_report file_name rows_count ncols stats_map
      cat_col cat_top missing = front ++ dashes := by
    exact joinLines_ends_with _ _ (reportLines_getLast _ _ _ _ _ _ _)
  refine ⟨by decide, by decide, ?_, hfront, ?_, ?_, ?_⟩
  · refine ⟨joinLines (("Source file: " ++ file_name) ::
      ("Total rows: " ++ toString rows_count) :: "" ::
      (numericSection ncols stats_map ++ catSection cat_col cat_top ++
       missingSection missing ++
       notesSection ncols cat_col cat_top missing)), ?_⟩
    unfold write_report
    rw [hrl, joinLines_cons_of_ne_nil _ _ (List.cons_ne_nil _ _),
      joinLines_cons_of_ne_nil _ _ (List.cons_ne_nil _ _)]
    simp [String.append_assoc]
  · obtain ⟨front, hf⟩ := hfront
    rw [hf]
    have : (front ++ dashes).toList = front.toList ++ dashes.toList := by
      simp [String.toList]
    have hd : dashes.toList.getLast? = some '-' := by decide
    rw [this, List.getLast?_append, hd]
    rfl
  · intro c hc s hs
    have hne : ncols.isEmpty = false := by
      cases ncols with
      | nil => cases hc
      | cons a l => rfl
    have hmem : statLine c s ∈ numericSection ncols stats_map := by
      unfold numericSection
      rw [hne]
      simp only [Bool.false_eq_true, if_false, List.mem_cons, List.mem_append]
      right
      left
      exact List.mem_filterMap.mpr ⟨c, hc, by rw [hs]; rfl⟩
    rw [hrl]
    simp only [List.mem_cons, List.mem_append]
    tauto
  · intro hne
    have hne' : ncols.isEmpty = false := by
      cases ncols with
      | nil => exact absurd rfl hne
      | cons a l => rfl
    unfold numericSection
    rw [hne']
    simp only [Bool.false_eq_true, if_false, List.length_cons, List.length_append,
      List.length_singleton]
    rw [length_filterMap_eq_countP]
    have : (ncols.countP fun c => ((lookupStats stats_map c).map (statLine c)).isSome)
        = ncols.countP fun c => (lookupStats stats_map c).isSome := by
      congr 1
      funext c
      simp [Option.isSome_map]
    rw [this]
    simp
    omega

theorem report_layout_witness :
    dashes.length = 32 :=
  (report_layout "sales_data.csv" 0 [] [] none none []).1

theorem pstrip_of_ws (s : String) (h : s.toList.all isPyWS = true) :
    pstrip s = "" := by
  unfold pstrip
  have hd : s.toList.dropWhile isPyWS = [] := by
    rw [List.dropWhile_eq_nil_iff]
    intro x hx
    exact (List.all_eq_true.mp h) x hx
  rw [hd]
  rfl

theorem pstrip_normCell (v : String) : pstrip (normCell v) = pstrip v := by
  unfold normCell
  by_cases h : v.toList.all isPyWS = true
  · rw [if_pos h, pstrip_of_ws v h]
    rfl
  · rw [if_neg h]

theorem get_normalizeRecord (r : Record) (c : String) :
    Record.get (normalizeRecord r) c = normCell (Record.get r c) := by
  induction r with
  | nil =>
    show ("" : String) = normCell ""
    rw [normCell]
    rfl
  | cons p r ih =>
    unfold normalizeRecord Record.get at *
    cases hpc : (p.1 == c) with
    | true =>
      simp only [List.map_cons, List.find?_cons, hpc]
    | false =>
      simp only [List.map_cons, List.find?_cons, hpc]
      exact ih

theorem cell_normalizeRecord (r : Record) (c : String) :
    cell (normalizeRecord r) c = cell r c := by
  unfold cell
  rw [get_normalizeRecord, pstrip_normCell]

theorem keys_normalizeRecord (r : Record) :
    Record.keys (normalizeRecord r) = Record.keys r := by
  unfold Record.keys normalizeRecord
  rw [List.map_map]
  rfl

theorem parsedVals_normalize (rows : List Record) (col : String) :
    parsedVals (normalizeRows rows) col = parsedVals rows col := by
  unfold parsedVals normalizeRows
  rw [List.filterMap_map]
  congr 1
  funext r
  show parseFloat (cell (normalizeRecord r) col) = parseFloat (cell r col)
  rw [cell_normalizeRecord]

/-- Claim C9: every operation reads a cell only through stripping: a cell
consisting only of whitespace satisfies the missing-cell test, and replacing
every whitespace-only cell by the empty cell changes nothing in column
classification, statistics, missing-value counting, or frequency counting. -/
theorem strip_invariance (rows : List Record) :
    (∀ (r : Record) (c : String),
      (Record.get r c).toList.all isPyWS = true → cell r c = "") ∧
    detect_numeric_columns (normalizeRows rows) = detect_numeric_columns rows ∧
    (∀ col, basic_stats (normalizeRows rows) col = basic_stats rows col) ∧
    missing_values (normalizeRows rows) = missing_values rows ∧
    (∀ col, most_frequent (normalizeRows rows) col = most_frequent rows col) := by
  refine ⟨?_, ?_, ?_, ?_, ?_⟩
  · intro r c h
    exact pstrip_of_ws _ h
  · cases rows with
    | nil => rfl
    | cons r0 rest =>
      show (Record.keys (normalizeRecord r0)).filter
          (fun c => (normalizeRows (r0 :: rest)).all (fun r => cellOk (cell r c)))
        = (Record.keys r0).filter
          (fun c => (r0 :: rest).all (fun r => cellOk (cell r c)))
      rw [keys_normalizeRecord]
      congr 1
      funext c
      show (List.map normalizeRecord (r0 :: rest)).all (fun r => cellOk (cell r c))
        = (r0 :: rest).all (fun r => cellOk (cell r c))
      rw [List.all_map]
      congr 1
      funext r
      show cellOk (cell (normalizeRecord r) c) = cellOk (cell r c)
      rw [cell_normalizeRecord]
  · intro col
    unfold basic_stats
    rw [parsedVals_normalize]
  · cases rows with
    | nil => rfl
    | cons r0 rest =>
      rw [show normalizeRows (r0 :: rest) =
          normalizeRecord r0 :: normalizeRows rest from rfl,
        missing_values_cons, missing_values_cons, keys_normalizeRecord]
      congr 1
      funext k
      have : (normalizeRecord r0 :: normalizeRows rest).countP
          (fun r => cell r k == "") =
          (r0 :: rest).countP (fun r => cell r k == "") := by
        show (List.map normalizeRecord (r0 :: rest)).countP
            (fun r => cell r k == "") = _
        rw [List.countP_map]
        congr 1
        funext r
        show (cell (normalizeRecord r) k == "") = (cell r k == "")
        rw [cell_normalizeRecord]
      rw [this]
  · intro col
    unfold most_frequent freqMap
    rw [show normalizeRows rows = List.map normalizeRecord rows from rfl,
      List.foldl_map]
    congr 2
    funext acc r
    show (let v := cell (normalizeRecord r) col
          if v == "" then acc else bump acc v) =
         (let v := cell r col
          if v == "" then acc else bump acc v)
    rw [cell_normalizeRecord]

theorem strip_invariance_witness :
    missing_values (normalizeRows demoRows) = missing_values demoRows :=
  (strip_invariance demoRows).2.2.2.1

/-- Claim C10: the three header-driven operations take the column set from
the first record only: a column absent from the first record is never
classified numeric, never appears in the missing-value mapping, and is never
chosen as the categorical column; and a record lacking a column reads as the
empty string for it. -/
theorem header_only_columns (r0 : Record) (rest : List Record) (c : String)
    (h : c ∉ Record.keys r0) :
    c ∉ detect_numeric_columns (r0 :: rest) ∧
    (∀ p ∈ missing_values (r0 :: rest), p.1 ≠ c) ∧
    (∀ ncols, first_categorical_column (r0 :: rest) ncols ≠ some c) ∧
    (∀ r : Record, c ∉ Record.keys r → Record.get r c = "") := by
  refine ⟨?_, ?_, ?_, ?_⟩
  · intro hc
    obtain ⟨r0', rest', heq, hk, _⟩ := (mem_detect_iff _ c).mp hc
    obtain ⟨rfl, rfl⟩ : r0' = r0 ∧ rest' = rest := by
      constructor <;> injection heq <;> simp_all
    exact h hk
  · intro p hp hpc
    rw [missing_values_cons] at hp
    obtain ⟨k, hk, hif⟩ := List.mem_filterMap.mp hp
    by_cases hcnt : 0 < (r0 :: rest).countP (fun r => cell r k == "")
    · rw [if_pos hcnt] at hif
      cases hif
      exact h (hpc ▸ hk)
    · rw [if_neg hcnt] at hif
      cases hif
  · intro ncols hc
    have : c ∈ Record.keys r0 := List.mem_of_find?_eq_some hc
    exact h this
  · intro r hr
    unfold Record.get
    have : r.find? (fun p => p.1 == c) = none := by
      rw [List.find?_eq_none]
      intro p hp hbc
      exact hr (List.mem_map.mpr ⟨p, hp, by simpa using hbc⟩)
    rw [this]

theorem header_only_columns_witness :
    "b" ∉ detect_numeric_columns [[("a", "1")], [("b", "2")]] ∧
    Record.get [("a", "1")] "b" = "" :=
  ⟨(header_only_columns [("a", "1")] [[("b", "2")]] "b" (by decide)).1,
   (header_only_columns [("a", "1")] [[("b", "2")]] "b" (by decide)).2.2.2
     [("a", "1")] (by decide)⟩
